import Mathlib

/-!
Verification development for the tdp-lib configuration core
(`src/tdp/core/service_manager.py` and `src/tdp/cli/commands/init.py`).

The development shallowly embeds the two algorithms of the core — default-merge
initialization and modified-component resolution — together with the registry
bootstrap loop. Collaborators that live outside the excerpt (the `Component`
class, ansible's `merge_hash`, `pathlib.Path.stem`, `GitRepository`, the
collection lookup and the YAML codec) are modelled from the specification; each
such definition carries a doc comment starting with `Modelled from the spec:`.
-/

/-- Modelled from the spec: an arbitrarily nested key-value mapping, the content
of one configuration file as produced by the structured-file codec
(`Variables(path).to_dict()`; the `tdp.core.variables` module is outside the
excerpt). Leaves are scalars (modelled as integers, which is all the merge laws
inspect); inner nodes are mappings, modelled as ordered association lists the
way Python `dict` preserves insertion order. -/
inductive Value where
  | int : Int → Value
  | obj : List (String × Value) → Value

mutual

/-- Modelled from the spec: ansible's `merge_hash` (imported by
`service_manager.py`, not part of the excerpt), the "recursive on shared nested
keys, later source wins ties" merge of two mappings. `mergeList a b` merges the
entries of `b` into the copy `a`, one key at a time in `b`'s order. -/
def mergeList (a : List (String × Value)) : List (String × Value) → List (String × Value)
  | [] => a
  | (k, v) :: rest => mergeList (insertKey a k v) rest
termination_by l => (sizeOf l, sizeOf a)
decreasing_by
  all_goals first
    | (apply Prod.Lex.left; (first | (simp; omega) | simp | omega); done)
    | (apply Prod.Lex.right; (first | (simp; omega) | simp | omega); done)

/-- Modelled from the spec: one key-update step of `merge_hash`. The entry is
replaced in place when the key is already present — recursing on the two values
when both are mappings, otherwise the later value wins — and appended at the
end when absent, as Python `dict` assignment does. -/
def insertKey (a : List (String × Value)) (k : String) (v : Value) : List (String × Value) :=
  match a with
  | [] => [(k, v)]
  | (k', v') :: t =>
    if k' = k then
      (k', match v', v with
           | Value.obj ia, Value.obj ib => Value.obj (mergeList ia ib)
           | _, w => w) :: t
    else (k', v') :: insertKey t k v
termination_by (sizeOf v, sizeOf a)
decreasing_by
  all_goals first
    | (apply Prod.Lex.left; (first | (simp; omega) | simp | omega); done)
    | (apply Prod.Lex.right; (first | (simp; omega) | simp | omega); done)

end

/-- Modelled from the spec: `merge_hash` on two whole values — when both sides
are mappings they merge recursively, otherwise the later value replaces the
earlier one wholesale. -/
def merge_hash (x y : Value) : Value :=
  match x, y with
  | Value.obj a, Value.obj b => Value.obj (mergeList a b)
  | _, w => w

/-- The `merge_collection_vars` helper from `service_manager.py`: delegates to
`merge_hash`. -/
def merge_collection_vars (dict_a dict_b : Value) : Value :=
  merge_hash dict_a dict_b

/-- Modelled from the spec: key lookup in a Python mapping (`x[key]` on an
association list with distinct keys). -/
def findPair : List (String × Value) → String → Option Value
  | [], _ => none
  | (k', v') :: t, k => if k' = k then some v' else findPair t k

theorem findPair_sizeOf (l : List (String × Value)) (k : String) (w : Value)
    (h : findPair l k = some w) : sizeOf w < sizeOf l := by
  induction l with
  | nil => simp [findPair] at h
  | cons p t ih =>
    obtain ⟨k', v'⟩ := p
    by_cases hk : k' = k
    · simp [findPair, hk] at h
      subst h
      simp
      omega
    · simp [findPair, hk] at h
      have := ih h
      simp
      omega

mutual

/-- Modelled from the spec: Python equality (`==`) between two nested mapping
values — order-insensitive on mapping keys, recursive on values. This is the
equality under which the spec compares merge results written as `{...}`
literals. -/
def dictEq (x y : Value) : Bool :=
  match x, y with
  | Value.int m, Value.int n => m == n
  | Value.obj a, Value.obj b => a.length == b.length && subDict a b
  | _, _ => false
termination_by sizeOf x + sizeOf y
decreasing_by
  simp
  omega

/-- Modelled from the spec: every key of the first mapping is present in the
second with a Python-equal value. -/
def subDict : List (String × Value) → List (String × Value) → Bool
  | [], _ => true
  | (k, v) :: t, b =>
    (match h : findPair b k with
     | some w => dictEq v w
     | none => false) && subDict t b
termination_by l b => sizeOf l + sizeOf b
decreasing_by
  · have := findPair_sizeOf b k w h
    simp
    omega
  · simp

end

/-- Error kinds of the core (§7 of the spec). `invalidServiceName` and
`notADirectory` are the two `ValueError`s raised in `service_manager.py`;
`unknownComponent` is the `KeyError` raised by the
`dag.services_components[...]` lookup; `noVersionYet` is
`tdp.core.repository.repository.NoVersionYet`. -/
inductive TdpError where
  | invalidServiceName (name : String)
  | notADirectory (path : String)
  | unknownComponent (service : String)
  | noVersionYet
deriving DecidableEq

/-- Modelled from the spec: the `Component` class (`tdp/core/component.py`,
outside the excerpt) — a graph node identified by a name of the shape
`<service>[_<sub-unit>]_<action>`, compared by identifier. -/
structure Component where
  name : String
deriving DecidableEq

/-- Splits a list of characters at underscores, the character-level counterpart
of Python `name.split("_")`. -/
def splitUnderscore : List Char → List Char → List (List Char)
  | [], acc => [acc.reverse]
  | c :: cs, acc =>
    if c = '_' then acc.reverse :: splitUnderscore cs []
    else splitUnderscore cs (c :: acc)

/-- Underscore-separated tokens of a component identifier. -/
def nameTokens (s : String) : List String :=
  (splitUnderscore s.toList []).map (fun l => String.mk l)

/-- Modelled from the spec: `Component.service` — the owning-service portion of
the identifier (the leading underscore-free token). -/
def Component.service (c : Component) : String :=
  (nameTokens c.name).headD ""

/-- Modelled from the spec: `Component.action` — the action-kind portion of the
identifier (the trailing token, e.g. `config`). -/
def Component.action (c : Component) : String :=
  (nameTokens c.name).getLastD ""

/-- Modelled from the spec: `Component.is_service` — true when the identifier
collapses exactly to `<service>_<action>` with an empty sub-unit portion. -/
def Component.is_service (c : Component) : Bool :=
  (nameTokens c.name).length = 2

/-- Modelled from the spec: `pathlib.Path(file).stem` — the final path
component without its suffix; the suffix is the part from the last dot on,
provided that dot is neither leading nor trailing within the final
component. -/
def path_stem (p : String) : String :=
  let name := p.toList.foldl (fun acc c => if c = '/' then [] else acc ++ [c]) []
  match (name.reverse.findIdx? (fun c => c = '.')).map (fun j => name.length - 1 - j) with
  | some i => if 0 < i ∧ i < name.length - 1 then String.mk (name.take i) else String.mk name
  | none => String.mk name

example : path_stem "hdfs.yml" = "hdfs" := by decide
example : path_stem "hdfs_datanode.yml" = "hdfs_datanode" := by decide
example : path_stem "dir/archive.tar.gz" = "archive.tar" := by decide
example : path_stem ".bashrc" = ".bashrc" := by decide

/-- Modelled from the spec: one configuration-source collaborator
(`tdp.core.collection.Collection`, outside the excerpt). For a service name,
`get_service_default_vars` yields the (target filename, parsed source content)
pairs of that collection, fusing the file lookup with the structured-file codec
`Variables(path).to_dict()`. -/
structure Collection where
  get_service_default_vars : String → List (String × Value)

/-- The Dependency Graph as used by `service_manager.py`: the service-name set
(`dag.services`), the configuration-source collaborators (`dag.collections`,
in declaration order) and the service-to-components mapping
(`dag.services_components`). Immutable after construction. -/
structure Dag where
  services : List String
  collections : List Collection
  services_components : List (String × List Component)

/-- Association-list lookup modelling the Python dict access
`dag.services_components[service]`; `none` models the `KeyError`. -/
def lookupComponents : List (String × List Component) → String → Option (List Component)
  | [], _ => none
  | (k', v') :: t, k => if k' = k then some v' else lookupComponents t k

/-- Every component of the Dependency Graph, in some service's component
list. -/
def graph_components (dag : Dag) : List Component :=
  (dag.services_components.map Prod.snd).flatten

/-- Insertion into the accumulating result set of `components_modified`
(Python `set.add` / one element of `set.update`): a no-op when the component
is already present. The Python set is unordered; the model fixes first-insertion
order, which no claim depends on. -/
def insertComponent (acc : List Component) (c : Component) : List Component :=
  if c ∈ acc then acc else acc ++ [c]

/-- The candidate component constructed for one changed file:
`Component(Path(file_modified).stem + "_config")`. -/
def candidate_component (file_modified : String) : Component :=
  ⟨path_stem file_modified ++ "_config"⟩

/-- The loop of `ServiceManager.components_modified` over the changed files,
with the accumulated result set explicit. A service-level candidate is
expanded to the service's components with action `config` via the
`dag.services_components` lookup (whose `KeyError` is the error case); any
other candidate is added as-is. -/
def components_modified_go (dag : Dag) :
    List String → List Component → Except TdpError (List Component)
  | [], acc => Except.ok acc
  | f :: rest, acc =>
    let c := candidate_component f
    if c.is_service then
      match lookupComponents dag.services_components c.service with
      | none => Except.error (TdpError.unknownComponent c.service)
      | some service_components =>
        components_modified_go dag rest
          (List.foldl insertComponent acc
            (service_components.filter (fun x => x.action == "config")))
    else
      components_modified_go dag rest (insertComponent acc c)

/-- Function `ServiceManager.components_modified`: the changed-file list produced by the
Versioned Directory diff (`self._repo.files_modified(version)`, a collaborator)
is the input; the result is the set of affected components. -/
def components_modified (dag : Dag) (files_modified : List String) :
    Except TdpError (List Component) :=
  components_modified_go dag files_modified []

/-- The `SERVICE_NAME_MAX_LENGTH` constant from `service_manager.py`. -/
def SERVICE_NAME_MAX_LENGTH : Nat := 15

/-- Modelled from the spec: `YML_EXTENSION` imported from
`tdp.core.collection` (outside the excerpt) — the extension of configuration
files, `<service>.<extension>`. -/
def YML_EXTENSION : String := ".yml"

/-- One committed Revision, as produced by the `repository.validate(message)`
transaction of the Versioned Directory: the commit message together with the
configuration files written in the transaction (filename and content). -/
structure Commit where
  message : String
  files : List (String × Value)

/-- The `ServiceManager` class — the service name is validated on construction; the
manager owns its Versioned Directory, modelled by the directory's list of
commits, and shares the Dependency Graph. -/
structure ServiceManager where
  name : String
  repository : List Commit
  dag : Dag

/-- The `ServiceManager.__init__` constructor: raises `ValueError` (spec:
`InvalidServiceName`) when the service name exceeds
`SERVICE_NAME_MAX_LENGTH`. -/
def ServiceManager.init (service_name : String) (repository : List Commit)
    (dag : Dag) : Except TdpError ServiceManager :=
  if service_name.length > SERVICE_NAME_MAX_LENGTH then
    Except.error (TdpError.invalidServiceName service_name)
  else
    Except.ok ⟨service_name, repository, dag⟩

/-- Modelled from the spec: `GitRepository.current_version` (the
`tdp.core.repository` module is outside the excerpt) — the current Revision,
or the `NoVersionYet` failure when the directory has never been committed. -/
def current_version (revisions : List Commit) : Except TdpError Commit :=
  match revisions.getLast? with
  | some c => Except.ok c
  | none => Except.error TdpError.noVersionYet

/-- One step of the `OrderedDict.setdefault(name, []).append(path)` grouping of
default-variable entries by target filename: an existing group is extended in
place, a new group is appended. -/
def addEntry (acc : List (String × List Value)) (k : String) (v : Value) :
    List (String × List Value) :=
  match acc with
  | [] => [(k, [v])]
  | (k', vs) :: t => if k' = k then (k', vs ++ [v]) :: t else (k', vs) :: addEntry t k v

/-- The `default_var_paths` accumulation loop of
`ServiceManager.initialize_variables`: every collection's default-variable
entries for the service, flattened in collection order and grouped by target
filename with order preserved. -/
def collect_default_vars (service_name : String) (collections : List Collection) :
    List (String × List Value) :=
  (collections.foldl (fun acc col => acc ++ col.get_service_default_vars service_name) []).foldl
    (fun acc p => addEntry acc p.1 p.2) []

/-- Function `ServiceManager.initialize_variables`: groups the default-variable entries
by filename (synthesizing a single empty `<service>.yml` group when there are
none), folds each group through `merge_collection_vars` starting from the empty
mapping, and commits all files as one transaction labeled
`"<service>: initial commit"`. The returned `Commit` is the single new
Revision created by the `repository.validate` context manager. -/
def initialize_variables (service_name : String) (collections : List Collection) :
    Commit :=
  let default_var_paths := collect_default_vars service_name collections
  let default_var_paths :=
    if default_var_paths.isEmpty then [(service_name ++ YML_EXTENSION, [])]
    else default_var_paths
  { message := service_name ++ ": initial commit",
    files := default_var_paths.map (fun p =>
      (p.1,
       if p.2.isEmpty then Value.obj []
       else p.2.foldl (fun acc v => merge_collection_vars acc v) (Value.obj []))) }

/-- Modelled from the spec: what occupies the filesystem path
`services_directory / service` before bootstrap — nothing, a directory, or a
non-directory entry. -/
inductive FsEntry where
  | dir
  | file
deriving DecidableEq

/-- Modelled from the spec: the pre-bootstrap state of one service's slot — the
filesystem entry at its directory path and the revision history of the
version-controlled store there (empty history means `NoVersionYet`). -/
structure ServiceState where
  entry : Option FsEntry
  revisions : List Commit

/-- The observable outcome of bootstrapping one service: the directory entry
after the step (always a directory on success; `mkdir(parents=True)` creates
it recursively when absent), the resulting revision history of the service's
Versioned Directory, and whether default-merge initialization ran. -/
structure SMResult where
  entry_after : FsEntry
  revisions : List Commit
  initialized_now : Bool

/-- The body of the `for service in dag.services` loop of
`ServiceManager.initialize_service_managers`: ensure the directory exists
(`ValueError`, spec `NotADirectory`, when a non-directory occupies the path),
initialize the version-controlled store (idempotent, history preserved),
construct the `ServiceManager` (name-length check), and run
`initialize_variables` exactly when `current_version` reports
`NoVersionYet`. -/
def bootstrapService (dag : Dag) (fs : String → ServiceState) (service : String) :
    Except TdpError SMResult :=
  let st := fs service
  match st.entry with
  | some FsEntry.file => Except.error (TdpError.notADirectory service)
  | _ =>
    match ServiceManager.init service st.revisions dag with
    | Except.error e => Except.error e
    | Except.ok _ =>
      if st.revisions.isEmpty then
        Except.ok ⟨FsEntry.dir,
                   st.revisions ++ [initialize_variables service dag.collections],
                   true⟩
      else
        Except.ok ⟨FsEntry.dir, st.revisions, false⟩

/-- The `for` loop of `ServiceManager.initialize_service_managers` over the
graph's services, accumulating the `service_managers` mapping; the first
failing service aborts the whole bootstrap. -/
def initialize_managers_go (dag : Dag) (fs : String → ServiceState) :
    List String → Except TdpError (List (String × SMResult))
  | [] => Except.ok []
  | s :: rest =>
    match bootstrapService dag fs s with
    | Except.error e => Except.error e
    | Except.ok r =>
      match initialize_managers_go dag fs rest with
      | Except.error e => Except.error e
      | Except.ok tail => Except.ok ((s, r) :: tail)

/-- Function `ServiceManager.initialize_service_managers`: bootstrap-and-initialize over
every service of the Dependency Graph, returning the service-to-manager
mapping. -/
def initialize_service_managers (dag : Dag) (fs : String → ServiceState) :
    Except TdpError (List (String × SMResult)) :=
  initialize_managers_go dag fs dag.services

theorem mem_insertComponent (acc : List Component) (c x : Component) :
    x ∈ insertComponent acc c ↔ x ∈ acc ∨ x = c := by
  by_cases hc : c ∈ acc
  · simp only [insertComponent, if_pos hc]
    constructor
    · exact Or.inl
    · rintro (hx | rfl)
      · exact hx
      · exact hc
  · simp [insertComponent, hc]

theorem mem_foldl_insertComponent (l : List Component) :
    ∀ acc x, x ∈ List.foldl insertComponent acc l ↔ x ∈ acc ∨ x ∈ l := by
  induction l with
  | nil => simp
  | cons c t ih =>
    intro acc x
    simp only [List.foldl_cons, ih, mem_insertComponent, List.mem_cons]
    tauto

theorem nodup_insertComponent (acc : List Component) (c : Component)
    (h : acc.Nodup) : (insertComponent acc c).Nodup := by
  by_cases hc : c ∈ acc
  · simpa [insertComponent, hc] using h
  · simp only [insertComponent, if_neg hc]
    exact h.append (List.nodup_singleton c) (List.disjoint_singleton.mpr hc)

theorem nodup_foldl_insertComponent (l : List Component) :
    ∀ acc, acc.Nodup → (List.foldl insertComponent acc l).Nodup := by
  induction l with
  | nil => intro acc h; simpa
  | cons c t ih => intro acc h; exact ih _ (nodup_insertComponent _ _ h)

theorem lookupComponents_mem (l : List (String × List Component)) (k : String)
    (v : List Component) (h : lookupComponents l k = some v) : v ∈ l.map Prod.snd := by
  induction l with
  | nil => simp [lookupComponents] at h
  | cons p t ih =>
    obtain ⟨k', v'⟩ := p
    by_cases hk : k' = k
    · simp [lookupComponents, hk] at h
      subst h
      simp
    · simp only [lookupComponents, if_neg hk] at h
      simp only [List.map_cons, List.mem_cons]
      exact Or.inr (ih h)

theorem components_modified_go_sound (dag : Dag) :
    ∀ (files : List String) (acc r : List Component),
      components_modified_go dag files acc = Except.ok r →
      ∀ c ∈ r, c ∈ acc ∨ (c ∈ graph_components dag ∧ c.action = "config") ∨
        ∃ f ∈ files, c = candidate_component f ∧
          (candidate_component f).is_service = false := by
  intro files
  induction files with
  | nil =>
    intro acc r h c hc
    simp only [components_modified_go, Except.ok.injEq] at h
    subst h
    exact Or.inl hc
  | cons f rest ih =>
    intro acc r h c hc
    simp only [components_modified_go] at h
    by_cases hs : (candidate_component f).is_service = true
    · cases hlk : lookupComponents dag.services_components (candidate_component f).service with
      | none => simp [hs, hlk] at h
      | some scs =>
        simp only [hs, if_pos, hlk] at h
        rcases ih _ _ h c hc with hacc | hgraph | ⟨f', hf', hcf⟩
        · rcases (mem_foldl_insertComponent _ _ _).mp hacc with h1 | h2
          · exact Or.inl h1
          · have hmem := List.mem_filter.mp h2
            refine Or.inr (Or.inl ⟨?_, ?_⟩)
            · exact List.mem_flatten.mpr ⟨scs, lookupComponents_mem _ _ _ hlk, hmem.1⟩
            · simpa using hmem.2
        · exact Or.inr (Or.inl hgraph)
        · exact Or.inr (Or.inr ⟨f', List.mem_cons_of_mem _ hf', hcf⟩)
    · simp only [Bool.not_eq_true] at hs
      simp only [hs, Bool.false_eq_true, if_false] at h
      rcases ih _ _ h c hc with hacc | hgraph | ⟨f', hf', hcf⟩
      · rcases (mem_insertComponent _ _ _).mp hacc with h1 | rfl
        · exact Or.inl h1
        · exact Or.inr (Or.inr ⟨f, List.mem_cons_self _ _, rfl, hs⟩)
      · exact Or.inr (Or.inl hgraph)
      · exact Or.inr (Or.inr ⟨f', List.mem_cons_of_mem _ hf', hcf⟩)

theorem components_modified_go_unknown (dag : Dag) :
    ∀ (files : List String) (acc : List Component) (f : String), f ∈ files →
      (candidate_component f).is_service = true →
      lookupComponents dag.services_components (candidate_component f).service = none →
      ∀ r, components_modified_go dag files acc ≠ Except.ok r := by
  intro files
  induction files with
  | nil =>
    intro acc f hf
    simp at hf
  | cons f' rest ih =>
    intro acc f hf hs hlk r h
    simp only [components_modified_go] at h
    rcases List.mem_cons.mp hf with rfl | hf'
    · simp [hs, hlk] at h
    · by_cases hs' : (candidate_component f').is_service = true
      · cases hlk' : lookupComponents dag.services_components (candidate_component f').service with
        | none => simp [hs', hlk'] at h
        | some scs =>
          simp only [hs', if_pos, hlk'] at h
          exact ih _ f hf' hs hlk _ h
      · simp only [Bool.not_eq_true] at hs'
        simp only [hs', Bool.false_eq_true, if_false] at h
        exact ih _ f hf' hs hlk _ h

theorem components_modified_go_nodup (dag : Dag) :
    ∀ (files : List String) (acc r : List Component), acc.Nodup →
      components_modified_go dag files acc = Except.ok r → r.Nodup := by
  intro files
  induction files with
  | nil =>
    intro acc r hacc h
    simp only [components_modified_go, Except.ok.injEq] at h
    subst h
    exact hacc
  | cons f rest ih =>
    intro acc r hacc h
    simp only [components_modified_go] at h
    by_cases hs : (candidate_component f).is_service = true
    · cases hlk : lookupComponents dag.services_components (candidate_component f).service with
      | none => simp [hs, hlk] at h
      | some scs =>
        simp only [hs, if_pos, hlk] at h
        exact ih _ _ (nodup_foldl_insertComponent _ _ hacc) h
    · simp only [Bool.not_eq_true] at hs
      simp only [hs, Bool.false_eq_true, if_false] at h
      exact ih _ _ (nodup_insertComponent _ _ hacc) h

/-- The Dependency Graph of the spec's worked example: service `hdfs` with
components `hdfs_datanode_config` and `hdfs_namenode_config`. -/
def sampleDag : Dag :=
  { services := ["hdfs"],
    collections := [],
    services_components :=
      [("hdfs", [⟨"hdfs_datanode_config"⟩, ⟨"hdfs_namenode_config"⟩])] }

/-- C1: for a changed file whose stem is a service-level name known to the
graph, modified-component resolution returns exactly that service's components
with action kind `config`; for a changed file whose stem names a sub-unit, it
returns only the single candidate component `<stem>_config`. -/
theorem c1_resolution_expansion (dag : Dag) (f g : String) :
    (∀ service_components : List Component,
      (candidate_component f).is_service = true →
      lookupComponents dag.services_components (candidate_component f).service =
        some service_components →
      ∃ r, components_modified dag [f] = Except.ok r ∧
        ∀ c, c ∈ r ↔ (c ∈ service_components ∧ c.action = "config")) ∧
    ((candidate_component g).is_service = false →
      components_modified dag [g] = Except.ok [candidate_component g]) := by
  constructor
  · intro service_components hs hlk
    refine ⟨List.foldl insertComponent []
      (service_components.filter (fun x => x.action == "config")), ?_, ?_⟩
    · simp [components_modified, components_modified_go, hs, hlk]
    · intro c
      rw [mem_foldl_insertComponent]
      simp [List.mem_filter]
  · intro hs
    simp [components_modified, components_modified_go, hs, insertComponent]

/-- C1 witness: the spec's `hdfs` example, with changed files `hdfs.yml` and
`hdfs_datanode.yml`. -/
theorem c1_witness :
    (∃ r, components_modified sampleDag ["hdfs.yml"] = Except.ok r ∧
      ∀ c, c ∈ r ↔
        (c ∈ [(⟨"hdfs_datanode_config"⟩ : Component), ⟨"hdfs_namenode_config"⟩] ∧
         c.action = "config")) ∧
    components_modified sampleDag ["hdfs_datanode.yml"] =
      Except.ok [⟨"hdfs_datanode_config"⟩] :=
  ⟨(c1_resolution_expansion sampleDag "hdfs.yml" "hdfs.yml").1
      [⟨"hdfs_datanode_config"⟩, ⟨"hdfs_namenode_config"⟩] (by decide) (by decide),
   (c1_resolution_expansion sampleDag "hdfs.yml" "hdfs_datanode.yml").2 (by decide)⟩

/-- C2 counterexample: with the spec's `hdfs` graph, the changed file
`zk_server.yml` resolves successfully to the synthetic component
`zk_server_config`, which does not belong to the Dependency Graph — the
resolution neither fails nor restricts itself to graph components. -/
theorem c2_counterexample :
    components_modified sampleDag ["zk_server.yml"] =
      Except.ok [⟨"zk_server_config"⟩] ∧
    (⟨"zk_server_config"⟩ : Component) ∉ graph_components sampleDag :=
  ⟨rfl, by decide⟩

/-- C2 (amended): resolution fails (never silently) when a service-level
candidate's owning service is unknown to the graph; every returned component
either belongs to the graph with action kind `config` (service-level
expansion) or is the verbatim sub-unit candidate `<stem>_config` of some
changed file, added without a graph-membership check. -/
theorem c2_resolution_membership (dag : Dag) :
    (∀ (files : List String) (r : List Component),
      components_modified dag files = Except.ok r →
      ∀ c ∈ r, (c ∈ graph_components dag ∧ c.action = "config") ∨
        ∃ f ∈ files, c = candidate_component f ∧
          (candidate_component f).is_service = false) ∧
    (∀ (files : List String) (f : String), f ∈ files →
      (candidate_component f).is_service = true →
      lookupComponents dag.services_components (candidate_component f).service = none →
      ∀ r, components_modified dag files ≠ Except.ok r) := by
  constructor
  · intro files r h c hc
    rcases components_modified_go_sound dag files [] r h c hc with hacc | hrest
    · simp at hacc
    · exact hrest
  · intro files f hf hs hlk r
    exact components_modified_go_unknown dag files [] f hf hs hlk r

/-- C2 witness: the amended characterization at the counterexample input — the
returned `zk_server_config` is the verbatim sub-unit candidate of
`zk_server.yml` — and the failure case at the service-level file `zk.yml`,
whose service `zk` is unknown to the graph. -/
theorem c2_witness :
    (((⟨"zk_server_config"⟩ : Component) ∈ graph_components sampleDag ∧
        (⟨"zk_server_config"⟩ : Component).action = "config") ∨
      ∃ f ∈ ["zk_server.yml"],
        (⟨"zk_server_config"⟩ : Component) = candidate_component f ∧
        (candidate_component f).is_service = false) ∧
    ∀ r, components_modified sampleDag ["zk.yml"] ≠ Except.ok r :=
  ⟨(c2_resolution_membership sampleDag).1 ["zk_server.yml"] [⟨"zk_server_config"⟩]
      rfl ⟨"zk_server_config"⟩ (List.mem_cons_self _ _),
   (c2_resolution_membership sampleDag).2 ["zk.yml"] "zk.yml"
      (List.mem_cons_self _ _) (by decide) (by decide)⟩

/-- C9: the collection returned by modified-component resolution never contains
a repeated component — the accumulating set deduplicates across changed files
whose expansions overlap. -/
theorem c9_no_duplicates (dag : Dag) (files : List String) (r : List Component)
    (h : components_modified dag files = Except.ok r) : r.Nodup :=
  components_modified_go_nodup dag files [] r List.nodup_nil h

/-- C9 witness: two changed files whose expansions overlap (`hdfs.yml` twice)
yield a duplicate-free result. -/
theorem c9_witness :
    List.Nodup [(⟨"hdfs_datanode_config"⟩ : Component), ⟨"hdfs_namenode_config"⟩] :=
  c9_no_duplicates sampleDag ["hdfs.yml", "hdfs.yml"] _ rfl

/-- C3: the two-mapping merge used by default-merge initialization is recursive
on shared nested-mapping keys with later-source leaves winning ties — merging
source A = {a:1, b:{c:2}} then source B = {b:{c:3, d:4}} yields
{a:1, b:{c:3, d:4}}: sibling keys of A survive, the conflicting leaf `c` takes
B's value, B's new leaf `d` is added. -/
theorem c3_recursive_merge_law :
    merge_collection_vars
      (Value.obj [("a", Value.int 1), ("b", Value.obj [("c", Value.int 2)])])
      (Value.obj [("b", Value.obj [("c", Value.int 3), ("d", Value.int 4)])])
    = Value.obj [("a", Value.int 1),
                 ("b", Value.obj [("c", Value.int 3), ("d", Value.int 4)])] := by
  simp [merge_collection_vars, merge_hash, mergeList, insertKey]

/-- C6: `ServiceManager` construction fails with `InvalidServiceName` for every
service name longer than 15 characters and succeeds for every name of length
at most 15. -/
theorem c6_service_name_length (service_name : String) (repository : List Commit)
    (dag : Dag) :
    (service_name.length > SERVICE_NAME_MAX_LENGTH →
      ServiceManager.init service_name repository dag =
        Except.error (TdpError.invalidServiceName service_name)) ∧
    (service_name.length ≤ SERVICE_NAME_MAX_LENGTH →
      ServiceManager.init service_name repository dag =
        Except.ok ⟨service_name, repository, dag⟩) := by
  constructor <;> intro h <;> simp [ServiceManager.init] <;> omega

/-- C6 witness: a 16-character name is rejected, a 4-character name is
accepted. -/
theorem c6_witness :
    ServiceManager.init "abcdefghijklmnop" [] sampleDag =
      Except.error (TdpError.invalidServiceName "abcdefghijklmnop") ∧
    ServiceManager.init "hdfs" [] sampleDag = Except.ok ⟨"hdfs", [], sampleDag⟩ :=
  ⟨(c6_service_name_length "abcdefghijklmnop" [] sampleDag).1 (by decide),
   (c6_service_name_length "hdfs" [] sampleDag).2 (by decide)⟩

/-- C7: the merge follows source declaration order and is not commutative —
merging B = {b:{c:3, d:4}} then A = {a:1, b:{c:2}} yields (up to Python mapping
equality) {a:1, b:{c:2, d:4}}, with the later source A winning on the
conflicting leaf `c`, and swapping the source order changes the result. -/
theorem c7_merge_order_matters :
    dictEq
      (merge_collection_vars
        (Value.obj [("b", Value.obj [("c", Value.int 3), ("d", Value.int 4)])])
        (Value.obj [("a", Value.int 1), ("b", Value.obj [("c", Value.int 2)])]))
      (Value.obj [("a", Value.int 1),
                  ("b", Value.obj [("c", Value.int 2), ("d", Value.int 4)])]) = true ∧
    dictEq
      (merge_collection_vars
        (Value.obj [("a", Value.int 1), ("b", Value.obj [("c", Value.int 2)])])
        (Value.obj [("b", Value.obj [("c", Value.int 3), ("d", Value.int 4)])]))
      (merge_collection_vars
        (Value.obj [("b", Value.obj [("c", Value.int 3), ("d", Value.int 4)])])
        (Value.obj [("a", Value.int 1), ("b", Value.obj [("c", Value.int 2)])])) = false := by
  constructor <;>
    simp [merge_collection_vars, merge_hash, mergeList, insertKey, dictEq, subDict, findPair]

theorem bootstrapService_ok (dag : Dag) (fs : String → ServiceState) (s : String)
    (r : SMResult) (h : bootstrapService dag fs s = Except.ok r) :
    (r.initialized_now = true ↔ (fs s).revisions = []) ∧
    ((fs s).revisions = [] →
      r.revisions = [initialize_variables s dag.collections]) ∧
    ((fs s).revisions ≠ [] → r.revisions = (fs s).revisions) ∧
    r.revisions ≠ [] ∧ r.entry_after = FsEntry.dir := by
  by_cases hlen : s.length > SERVICE_NAME_MAX_LENGTH
  · rcases hentry : (fs s).entry with _ | e
    · simp [bootstrapService, hentry, ServiceManager.init, hlen] at h
    · cases e
      · simp [bootstrapService, hentry, ServiceManager.init, hlen] at h
      · simp [bootstrapService, hentry] at h
  · rcases hentry : (fs s).entry with _ | e
    · by_cases hrev : (fs s).revisions.isEmpty = true
      · simp [bootstrapService, hentry, ServiceManager.init, hlen, hrev] at h
        rw [List.isEmpty_iff] at hrev
        subst h
        simp [hrev]
      · simp [bootstrapService, hentry, ServiceManager.init, hlen, hrev] at h
        rw [List.isEmpty_iff] at hrev
        subst h
        simp [hrev]
    · cases e
      · by_cases hrev : (fs s).revisions.isEmpty = true
        · simp [bootstrapService, hentry, ServiceManager.init, hlen, hrev] at h
          rw [List.isEmpty_iff] at hrev
          subst h
          simp [hrev]
        · simp [bootstrapService, hentry, ServiceManager.init, hlen, hrev] at h
          rw [List.isEmpty_iff] at hrev
          subst h
          simp [hrev]
      · simp [bootstrapService, hentry] at h

theorem initialize_managers_go_mem (dag : Dag) (fs : String → ServiceState) :
    ∀ (l : List String) (res : List (String × SMResult)),
      initialize_managers_go dag fs l = Except.ok res →
      ∀ s r, (s, r) ∈ res → bootstrapService dag fs s = Except.ok r := by
  intro l
  induction l with
  | nil =>
    intro res h s r hm
    simp only [initialize_managers_go, Except.ok.injEq] at h
    subst h
    simp at hm
  | cons s' rest ih =>
    intro res h s r hm
    simp only [initialize_managers_go] at h
    cases hb : bootstrapService dag fs s' with
    | error e => simp [hb] at h
    | ok r' =>
      cases hg : initialize_managers_go dag fs rest with
      | error e => simp [hb, hg] at h
      | ok tail =>
        simp only [hb, hg, Except.ok.injEq] at h
        subst h
        rcases List.mem_cons.mp hm with heq | hmem
        · obtain ⟨rfl, rfl⟩ := Prod.mk.injEq .. ▸ heq
          exact hb
        · exact ih _ hg s r hmem

theorem initialize_managers_go_error (dag : Dag) (fs : String → ServiceState)
    (e : TdpError) :
    ∀ (l : List String) (s : String), s ∈ l →
      bootstrapService dag fs s = Except.error e →
      ∀ res, initialize_managers_go dag fs l ≠ Except.ok res := by
  intro l
  induction l with
  | nil =>
    intro s hs
    simp at hs
  | cons s' rest ih =>
    intro s hs hb res h
    simp only [initialize_managers_go] at h
    rcases List.mem_cons.mp hs with rfl | hs'
    · simp [hb] at h
    · cases hb' : bootstrapService dag fs s' with
      | error e' => simp [hb'] at h
      | ok r' =>
        cases hg : initialize_managers_go dag fs rest with
        | error e' => simp [hb', hg] at h
        | ok tail => exact ih s hs' hb tail hg

theorem collect_default_vars_append (service_name : String) :
    ∀ (collections : List Collection) (acc : List (String × Value)),
      (∀ col ∈ collections, col.get_service_default_vars service_name = []) →
      List.foldl (fun acc col => acc ++ col.get_service_default_vars service_name)
        acc collections = acc := by
  intro collections
  induction collections with
  | nil => intro acc _; rfl
  | cons col rest ih =>
    intro acc h
    simp only [List.foldl_cons, h col (List.mem_cons_self _ _), List.append_nil]
    exact ih acc (fun c hc => h c (List.mem_cons_of_mem _ hc))

theorem collect_default_vars_empty (service_name : String)
    (collections : List Collection)
    (h : ∀ col ∈ collections, col.get_service_default_vars service_name = []) :
    collect_default_vars service_name collections = [] := by
  unfold collect_default_vars
  rw [collect_default_vars_append service_name collections [] h]
  rfl

/-- C4: for a service whose default-variable sources yield zero entries,
default-merge initialization still commits exactly one new Revision, holding
exactly one configuration file `<service>.yml` with no keys written, under the
transaction message `"<service>: initial commit"`. -/
theorem c4_empty_defaults_initialization (service_name : String)
    (collections : List Collection)
    (h : ∀ col ∈ collections, col.get_service_default_vars service_name = []) :
    initialize_variables service_name collections =
      { message := service_name ++ ": initial commit",
        files := [(service_name ++ YML_EXTENSION, Value.obj [])] } ∧
    ∀ (dag : Dag) (fs : String → ServiceState),
      dag.collections = collections →
      (fs service_name).entry ≠ some FsEntry.file →
      (fs service_name).revisions = [] →
      service_name.length ≤ SERVICE_NAME_MAX_LENGTH →
      bootstrapService dag fs service_name =
        Except.ok ⟨FsEntry.dir, [initialize_variables service_name collections], true⟩ := by
  have hcoll := collect_default_vars_empty service_name collections h
  constructor
  · simp [initialize_variables, hcoll]
  · intro dag fs hc hentry hrev hlen
    have hlen' : ¬ (service_name.length > SERVICE_NAME_MAX_LENGTH) := by omega
    rcases hfs : (fs service_name).entry with _ | e
    · simp [bootstrapService, hfs, ServiceManager.init, hlen', hrev, hc]
    · cases e
      · simp [bootstrapService, hfs, ServiceManager.init, hlen', hrev, hc]
      · exact absurd hfs hentry

/-- C4 witness: service `hdfs` with no configuration-source collaborators at
all, bootstrapped over an absent directory with no revision history. -/
theorem c4_witness :
    initialize_variables "hdfs" [] =
      { message := "hdfs" ++ ": initial commit",
        files := [("hdfs" ++ YML_EXTENSION, Value.obj [])] } ∧
    ∀ (dag : Dag) (fs : String → ServiceState),
      dag.collections = [] →
      (fs "hdfs").entry ≠ some FsEntry.file →
      (fs "hdfs").revisions = [] →
      ("hdfs" : String).length ≤ SERVICE_NAME_MAX_LENGTH →
      bootstrapService dag fs "hdfs" =
        Except.ok ⟨FsEntry.dir, [initialize_variables "hdfs" []], true⟩ :=
  c4_empty_defaults_initialization "hdfs" [] (by simp)

/-- A pre-existing Revision, for exercising the already-initialized case. -/
def commit0 : Commit := ⟨"c0", []⟩

/-- A two-service graph with no configuration sources, for the bootstrap
witnesses. -/
def bootDag : Dag := { services := ["zk", "hdfs"], collections := [], services_components := [] }

/-- Pre-bootstrap state: `zk` already has a directory and one Revision, `hdfs`
has nothing yet. -/
def sampleFs : String → ServiceState := fun s =>
  if s = "zk" then ⟨some FsEntry.dir, [commit0]⟩ else ⟨none, []⟩

/-- C5: in a successful bootstrap, default-merge initialization ran for a
service exactly when its Versioned Directory reported `NoRevisionYet` (empty
history), and an already-initialized service keeps its revision history
unchanged — no new Revision is created for it. -/
theorem c5_init_exactly_when_no_revision (dag : Dag) (fs : String → ServiceState)
    (res : List (String × SMResult))
    (h : initialize_service_managers dag fs = Except.ok res) :
    ∀ s r, (s, r) ∈ res →
      (r.initialized_now = true ↔ (fs s).revisions = []) ∧
      ((fs s).revisions ≠ [] → r.revisions = (fs s).revisions) := by
  intro s r hm
  have hb := initialize_managers_go_mem dag fs dag.services res h s r hm
  have hc := bootstrapService_ok dag fs s r hb
  exact ⟨hc.1, hc.2.2.1⟩

/-- C5 witness: bootstrapping `bootDag` over `sampleFs` leaves the
already-initialized `zk` untouched and uninitialized. -/
theorem c5_witness :
    ((⟨FsEntry.dir, [commit0], false⟩ : SMResult).initialized_now = true ↔
      (sampleFs "zk").revisions = []) ∧
    ((sampleFs "zk").revisions ≠ [] →
      (⟨FsEntry.dir, [commit0], false⟩ : SMResult).revisions = (sampleFs "zk").revisions) :=
  c5_init_exactly_when_no_revision bootDag sampleFs
    [("zk", ⟨FsEntry.dir, [commit0], false⟩),
     ("hdfs", ⟨FsEntry.dir, [initialize_variables "hdfs" []], true⟩)]
    rfl "zk" ⟨FsEntry.dir, [commit0], false⟩ (List.mem_cons_self _ _)

/-- C8: for every service, bootstrap creates the directory when the path is
absent, fails with `NotADirectory` (surfaced to the caller, aborting the whole
bootstrap) when a non-directory entry occupies the path, and proceeds without
error when a directory is already there. -/
theorem c8_directory_trichotomy (dag : Dag) (fs : String → ServiceState) (s : String)
    (hlen : s.length ≤ SERVICE_NAME_MAX_LENGTH) :
    ((fs s).entry = none →
      ∃ r, bootstrapService dag fs s = Except.ok r ∧ r.entry_after = FsEntry.dir) ∧
    ((fs s).entry = some FsEntry.file →
      bootstrapService dag fs s = Except.error (TdpError.notADirectory s) ∧
      (s ∈ dag.services → ∀ res, initialize_service_managers dag fs ≠ Except.ok res)) ∧
    ((fs s).entry = some FsEntry.dir →
      ∃ r, bootstrapService dag fs s = Except.ok r ∧ r.entry_after = FsEntry.dir) := by
  have hlen' : ¬ (s.length > SERVICE_NAME_MAX_LENGTH) := by omega
  refine ⟨?_, ?_, ?_⟩
  · intro hentry
    by_cases hrev : (fs s).revisions.isEmpty = true
    · exact ⟨⟨FsEntry.dir, (fs s).revisions ++ [initialize_variables s dag.collections], true⟩,
        by simp [bootstrapService, hentry, ServiceManager.init, hlen', hrev], rfl⟩
    · exact ⟨⟨FsEntry.dir, (fs s).revisions, false⟩,
        by simp [bootstrapService, hentry, ServiceManager.init, hlen', hrev], rfl⟩
  · intro hentry
    have hb : bootstrapService dag fs s = Except.error (TdpError.notADirectory s) := by
      simp [bootstrapService, hentry]
    exact ⟨hb, fun hs res => initialize_managers_go_error dag fs _ dag.services s hs hb res⟩
  · intro hentry
    by_cases hrev : (fs s).revisions.isEmpty = true
    · exact ⟨⟨FsEntry.dir, (fs s).revisions ++ [initialize_variables s dag.collections], true⟩,
        by simp [bootstrapService, hentry, ServiceManager.init, hlen', hrev], rfl⟩
    · exact ⟨⟨FsEntry.dir, (fs s).revisions, false⟩,
        by simp [bootstrapService, hentry, ServiceManager.init, hlen', hrev], rfl⟩

/-- C8 witness: `hdfs` has no directory yet in `sampleFs`; bootstrap creates it
and succeeds. -/
theorem c8_witness :
    ∃ r, bootstrapService bootDag sampleFs "hdfs" = Except.ok r ∧
      r.entry_after = FsEntry.dir :=
  (c8_directory_trichotomy bootDag sampleFs "hdfs" (by decide)).1 rfl

/-- C10: after a successful bootstrap, every manager in the returned mapping is
bound to a Versioned Directory with at least one Revision, so reading its
version never fails with `NoVersionYet` — the caller-side `NoVersionYet`
fallback in the `init` command is unreachable. -/
theorem c10_version_after_bootstrap (dag : Dag) (fs : String → ServiceState)
    (res : List (String × SMResult))
    (h : initialize_service_managers dag fs = Except.ok res) :
    ∀ s r, (s, r) ∈ res →
      current_version r.revisions ≠ Except.error TdpError.noVersionYet := by
  intro s r hm
  have hb := initialize_managers_go_mem dag fs dag.services res h s r hm
  have hne := (bootstrapService_ok dag fs s r hb).2.2.2.1
  have hsome : r.revisions.getLast?.isSome := List.getLast?_isSome.mpr hne
  rcases ho : r.revisions.getLast? with _ | c
  · rw [ho] at hsome
    simp at hsome
  · simp [current_version, ho]

/-- C10 witness: after bootstrapping `bootDag` over `sampleFs`, the freshly
initialized `hdfs` manager has a readable version. -/
theorem c10_witness :
    current_version [initialize_variables "hdfs" []] ≠
      Except.error TdpError.noVersionYet :=
  c10_version_after_bootstrap bootDag sampleFs
    [("zk", ⟨FsEntry.dir, [commit0], false⟩),
     ("hdfs", ⟨FsEntry.dir, [initialize_variables "hdfs" []], true⟩)]
    rfl "hdfs" ⟨FsEntry.dir, [initialize_variables "hdfs" []], true⟩
    (List.mem_cons_of_mem _ (List.mem_cons_self _ _))
